import Mathlib

/-!
Verification of the password strength checker (`passwordstrength.py`).

Passwords are modelled as `List Char`.  Python's regex character classes
`[a-z]`, `[A-Z]`, `[0-9]` and `[^\w]` are modelled by decidable predicates
on `Char`; `\w` is taken in its ASCII meaning (letter, digit or underscore),
which agrees with Python on ASCII input.  Python `float` values produced by
`math.log2` are modelled as real numbers; `round(x, 1)` is modelled by
rounding `10 * x` to the nearest integer and dividing by `10` (the two agree
except at exact ties, which do not arise below).  The result dictionary is
modelled by the structure `Verdict`, with the optional keys `entropy_bits`
and `length` as `Option` fields (`none` means the key is absent).
-/

namespace PasswordStrength

/-- The blacklist `COMMON` from the source, a set of lowercase strings. -/
def COMMON : List (List Char) :=
  ["password", "123456", "123456789", "12345", "qwerty", "abc123", "111111",
   "123123", "letmein", "admin", "welcome", "iloveyou", "monkey", "dragon",
   "football", "baseball", "qwertyuiop", "1234", "1q2w3e4r", "passw0rd",
   "password1", "000000"].map String.toList

/-- The regex class `[a-z]` applied to one character. -/
def isLowerC (c : Char) : Bool := 'a' ≤ c && c ≤ 'z'

/-- The regex class `[A-Z]` applied to one character. -/
def isUpperC (c : Char) : Bool := 'A' ≤ c && c ≤ 'Z'

/-- The regex class `[0-9]` applied to one character. -/
def isDigitC (c : Char) : Bool := '0' ≤ c && c ≤ '9'

/-- The regex class `\w` (word character) in its ASCII meaning. -/
def isWordC (c : Char) : Bool := isLowerC c || isUpperC c || isDigitC c || c == '_'

/-- The regex class `[^\w]` (symbol / "other") applied to one character. -/
def isSymbolC (c : Char) : Bool := !isWordC c

/-- `pw.lower()` from Python, for ASCII letters. -/
def toLowerList (pw : List Char) : List Char := pw.map Char.toLower

/-- `charset_size` from the source: sum the fixed class sizes of the classes
that occur at least once; `size or 1` yields `1` when the sum is `0`. -/
def charset_size (pw : List Char) : ℕ :=
  let size : ℕ :=
    (if pw.any isLowerC then 26 else 0) +
    (if pw.any isUpperC then 26 else 0) +
    (if pw.any isDigitC then 10 else 0) +
    (if pw.any isSymbolC then 33 else 0)
  if size = 0 then 1 else size

/-- `shannon_entropy_bits` from the source: `len(pw) * math.log2(charset_size(pw))`. -/
noncomputable def shannon_entropy_bits (pw : List Char) : ℝ :=
  (pw.length : ℝ) * Real.logb 2 (charset_size pw)

/-- Does `pat` start the list `s`? (Helper for substring search.) -/
def startsWith : List Char → List Char → Bool
  | [], _ => true
  | _ :: _, [] => false
  | p :: ps, c :: cs => p == c && startsWith ps cs

/-- Does `pat` occur as a contiguous substring of `s`? (Models Python's
`pat in s` and a regex alternation of literal patterns.) -/
def hasSub (pat : List Char) : List Char → Bool
  | [] => pat.isEmpty
  | c :: cs => startsWith pat (c :: cs) || hasSub pat cs

/-- The regex `(.)\1{2,}`: some character other than a newline occurs three
or more times in a row (`.` does not match a newline, and the group cannot
capture one). -/
def hasTripleRepeat : List Char → Bool
  | a :: b :: c :: rest =>
      (!(a == '\n') && a == b && b == c) || hasTripleRepeat (b :: c :: rest)
  | _ => false

/-- The ascending numeric runs of the regex on line 32 of the source. -/
def NUM_RUNS : List (List Char) :=
  ["0123", "1234", "2345", "3456", "4567", "5678", "6789"].map String.toList

/-- The alphabetic runs of the regex on line 34 of the source. -/
def ALPHA_RUNS : List (List Char) :=
  ["abcd", "bcde", "cdef", "defg", "qwer", "asdf", "zxcv"].map String.toList

/-- The keyboard rows `kb_rows` from the source. -/
def KB_ROWS : List (List Char) :=
  ["qwertyuiop", "asdfghjkl", "zxcvbnm"].map String.toList

/-- Does the length-4 window of `row` at position `i`, for some
`i < row.length - 3`, occur in `pwLower`?  This is the inner loop over one
keyboard row; the `break` in the source makes each row contribute at most
once, so the row loop adds the number of rows for which this holds. -/
def rowHit (row pwLower : List Char) : Bool :=
  (List.range (row.length - 3)).any fun i => hasSub ((row.drop i).take 4) pwLower

/-- `repeating_or_sequences_penalty` from the source: one point for a triple
repeat, one for an ascending numeric run, one for a listed alphabetic run,
and one per keyboard row containing a matching 4-character window. -/
def repeating_or_sequences_penalty (pw : List Char) : ℕ :=
  (if hasTripleRepeat pw then 1 else 0) +
  (if NUM_RUNS.any (fun pat => hasSub pat pw) then 1 else 0) +
  (if ALPHA_RUNS.any (fun pat => hasSub pat (toLowerList pw)) then 1 else 0) +
  (KB_ROWS.filter (fun row => rowHit row (toLowerList pw))).length

/-- The result dictionary of `score_password`.  `entropy_bits` and `length`
are `none` exactly when the corresponding keys are absent. -/
structure Verdict where
  score : ℤ
  label : String
  reasons : List String
  entropy_bits : Option ℝ
  length : Option ℕ

/-- `round(x, 1)` from Python, on real numbers. -/
noncomputable def round1 (x : ℝ) : ℝ := ((round (10 * x) : ℤ) : ℝ) / 10

/-- `cats` from line 64 of the source: how many of the four character
classes occur in the password. -/
def cats (pw : List Char) : ℕ :=
  (if pw.any isLowerC then 1 else 0) +
  (if pw.any isUpperC then 1 else 0) +
  (if pw.any isDigitC then 1 else 0) +
  (if pw.any isSymbolC then 1 else 0)

/-- The main branch of `score_password` (lines 56-96 of the source), reached
when the password is non-empty and not blacklisted.  Each `let` mirrors one
mutation of the Python locals `score` and `reasons`; the reason on line 61
is appended exactly when the final length `else` is reached, i.e. when
`¬ 8 ≤ L`, and the reason on line 74 exactly when the final entropy `else`
is reached, i.e. when `¬ 40 ≤ bits`. -/
noncomputable def mainVerdict (pw : List Char) : Verdict :=
  let L := pw.length
  let s1 : ℤ := if 16 ≤ L then 4 else if 12 ≤ L then 3 else
    if 10 ≤ L then 2 else if 8 ≤ L then 1 else 0
  let r1 : List String := if 8 ≤ L then [] else ["Too short (< 8 characters)."]
  let c := cats pw
  let s2 : ℤ := s1 + max 0 ((c : ℤ) - 1)
  let r2 : List String := r1 ++
    (if c ≤ 1 then ["Use a mix of lowercase, uppercase, digits, and symbols."] else [])
  let bits := shannon_entropy_bits pw
  let s3 : ℤ := if (80 : ℝ) ≤ bits then s2 + 3 else if (60 : ℝ) ≤ bits then s2 + 2 else
    if (40 : ℝ) ≤ bits then s2 + 1 else s2
  let r3 : List String := r2 ++
    (if (40 : ℝ) ≤ bits then [] else ["Low entropy — consider longer length and more variety."])
  let p := repeating_or_sequences_penalty pw
  let s4 : ℤ := s3 - (p : ℤ)
  let r4 : List String := r3 ++
    (if p ≠ 0 then ["Avoid repeats or easy sequences (e.g., 1234, qwer, aaa)."] else [])
  let s5 : ℤ := max 0 (min 10 s4)
  let lab : String := if 9 ≤ s5 then "Excellent" else if 7 ≤ s5 then "Strong" else
    if 5 ≤ s5 then "Moderate" else if 3 ≤ s5 then "Weak" else "Very Weak"
  { score := s5, label := lab, reasons := r4,
    entropy_bits := some (round1 bits), length := some L }

/-- `score_password` from the source: empty check, blacklist check, then the
main scoring branch. -/
noncomputable def score_password (pw : List Char) : Verdict :=
  if pw = [] then
    { score := 0, label := "Empty", reasons := ["No password provided."],
      entropy_bits := none, length := none }
  else if toLowerList pw ∈ COMMON then
    { score := 1, label := "Very Weak", reasons := ["Common password (easily guessed)."],
      entropy_bits := none, length := none }
  else
    mainVerdict pw

/-! Definitions following the spec's wording, used to state the refinement
claims about the aggregate score (§4.4 of the spec). -/

/-- The spec's length tier: 4 points if length ≥ 16, else 3 if ≥ 12,
else 2 if ≥ 10, else 1 if ≥ 8, else 0. -/
def lengthTier (L : ℕ) : ℤ :=
  if 16 ≤ L then 4 else if 12 ≤ L then 3 else if 10 ≤ L then 2 else
  if 8 ≤ L then 1 else 0

/-- The spec's variety points: `max 0 (count − 1)` over the four classes. -/
def varietyPoints (pw : List Char) : ℤ := max 0 ((cats pw : ℤ) - 1)

/-- The spec's entropy tier: 3 points if the entropy is at least 80 bits,
2 if at least 60, 1 if at least 40, else 0. -/
noncomputable def entropyTier (pw : List Char) : ℤ :=
  if (80 : ℝ) ≤ shannon_entropy_bits pw then 3 else
  if (60 : ℝ) ≤ shannon_entropy_bits pw then 2 else
  if (40 : ℝ) ≤ shannon_entropy_bits pw then 1 else 0

/-- The running score of the spec before the final clamp:
length tier + variety points + entropy tier − pattern penalty. -/
noncomputable def preClampScore (pw : List Char) : ℤ :=
  lengthTier pw.length + varietyPoints pw + entropyTier pw -
    (repeating_or_sequences_penalty pw : ℤ)

/-- The spec's label mapping on the clamped score: ≥ 9 → "Excellent",
≥ 7 → "Strong", ≥ 5 → "Moderate", ≥ 3 → "Weak", else "Very Weak". -/
def labelOf (s : ℤ) : String :=
  if 9 ≤ s then "Excellent" else if 7 ≤ s then "Strong" else
  if 5 ≤ s then "Moderate" else if 3 ≤ s then "Weak" else "Very Weak"

/-! Basic facts about the embedding. -/

/-- The charset size is always positive. -/
theorem charset_size_pos (pw : List Char) : 0 < charset_size pw := by
  unfold charset_size
  dsimp only
  split_ifs <;> omega

theorem score_password_empty :
    score_password [] =
      { score := 0, label := "Empty", reasons := ["No password provided."],
        entropy_bits := none, length := none } := by
  unfold score_password
  simp

theorem score_password_common {pw : List Char} (h1 : pw ≠ [])
    (h2 : toLowerList pw ∈ COMMON) :
    score_password pw =
      { score := 1, label := "Very Weak",
        reasons := ["Common password (easily guessed)."],
        entropy_bits := none, length := none } := by
  unfold score_password
  rw [if_neg h1, if_pos h2]

theorem score_password_main {pw : List Char} (h1 : pw ≠ [])
    (h2 : toLowerList pw ∉ COMMON) :
    score_password pw = mainVerdict pw := by
  unfold score_password
  rw [if_neg h1, if_neg h2]

/-- Comparing `n * log2 c` against a positive natural threshold `T` is the
same as comparing `c ^ n` against `2 ^ T`. -/
theorem nat_le_mul_logb_iff (T n c : ℕ) (hT : 0 < T) (hc : 0 < c) :
    ((T : ℝ) ≤ (n : ℝ) * Real.logb 2 c) ↔ 2 ^ T ≤ c ^ n := by
  rcases Nat.lt_or_ge c 2 with h2 | h2
  · have hc1 : c = 1 := by omega
    subst hc1
    simp only [Nat.cast_one, Real.logb_one, mul_zero, one_pow]
    constructor
    · intro h
      exfalso
      have hT' : (0 : ℝ) < (T : ℝ) := by exact_mod_cast hT
      linarith
    · intro h
      exfalso
      have : 2 ^ 1 ≤ 2 ^ T := Nat.pow_le_pow_right (by norm_num) hT
      omega
  · have hc0 : (0 : ℝ) < (c : ℝ) ^ n := by positivity
    rw [show (n : ℝ) * Real.logb 2 (c : ℝ) = Real.logb 2 ((c : ℝ) ^ n) by
      rw [Real.logb_pow]]
    rw [Real.le_logb_iff_rpow_le (by norm_num) hc0, Real.rpow_natCast]
    exact_mod_cast Iff.rfl

theorem shannon_ge_80_iff (pw : List Char) :
    ((80 : ℝ) ≤ shannon_entropy_bits pw) ↔
      2 ^ 80 ≤ charset_size pw ^ pw.length := by
  have h := nat_le_mul_logb_iff 80 pw.length (charset_size pw)
    (by norm_num) (charset_size_pos pw)
  unfold shannon_entropy_bits
  exact_mod_cast h

theorem shannon_ge_60_iff (pw : List Char) :
    ((60 : ℝ) ≤ shannon_entropy_bits pw) ↔
      2 ^ 60 ≤ charset_size pw ^ pw.length := by
  have h := nat_le_mul_logb_iff 60 pw.length (charset_size pw)
    (by norm_num) (charset_size_pos pw)
  unfold shannon_entropy_bits
  exact_mod_cast h

theorem shannon_ge_40_iff (pw : List Char) :
    ((40 : ℝ) ≤ shannon_entropy_bits pw) ↔
      2 ^ 40 ≤ charset_size pw ^ pw.length := by
  have h := nat_le_mul_logb_iff 40 pw.length (charset_size pw)
    (by norm_num) (charset_size_pos pw)
  unfold shannon_entropy_bits
  exact_mod_cast h

/-- C1: for every input string, the `score` field of the Verdict returned by
`score_password` is an integer in `[0, 10]`. -/
theorem score_password_score_in_range (pw : List Char) :
    0 ≤ (score_password pw).score ∧ (score_password pw).score ≤ 10 := by
  by_cases h1 : pw = []
  · subst h1
    rw [score_password_empty]
    norm_num
  · by_cases h2 : toLowerList pw ∈ COMMON
    · rw [score_password_common h1 h2]
      norm_num
    · rw [score_password_main h1 h2]
      unfold mainVerdict
      refine ⟨le_max_left 0 _, max_le (by norm_num) (min_le_left _ _)⟩

/-- C4: for the empty string, `score_password` returns exactly the Verdict
with score 0, label "Empty", the single reason "No password provided.", and
no `entropy_bits` or `length` keys. -/
theorem score_password_empty_exact :
    score_password [] =
      { score := 0, label := "Empty", reasons := ["No password provided."],
        entropy_bits := none, length := none } :=
  score_password_empty

/-- C5: for every non-empty password whose lowercasing is in the blacklist,
`score_password` returns exactly the fixed "Very Weak" Verdict with score 1,
no `entropy_bits` or `length` keys, and nothing from the later heuristics. -/
theorem score_password_common_exact (pw : List Char) (h1 : pw ≠ [])
    (h2 : toLowerList pw ∈ COMMON) :
    score_password pw =
      { score := 1, label := "Very Weak",
        reasons := ["Common password (easily guessed)."],
        entropy_bits := none, length := none } :=
  score_password_common h1 h2

theorem score_password_common_exact_witness :
    score_password ("PASSWORD".toList) =
      { score := 1, label := "Very Weak",
        reasons := ["Common password (easily guessed)."],
        entropy_bits := none, length := none } :=
  score_password_common_exact _ (by decide) (by decide)

/-- C6: `charset_size` sums the fixed class sizes 26/26/10/33 of the classes
present, falls back to 1 when no class is present, hence is never 0; and it
takes the values 26, 36 and 95 on "abc", "abc123" and "Abc123!". -/
theorem charset_size_spec :
    (∀ pw : List Char,
      0 < charset_size pw ∧
      charset_size pw =
        (if pw.any isLowerC || pw.any isUpperC || pw.any isDigitC ||
            pw.any isSymbolC then
          (if pw.any isLowerC then 26 else 0) +
          (if pw.any isUpperC then 26 else 0) +
          (if pw.any isDigitC then 10 else 0) +
          (if pw.any isSymbolC then 33 else 0)
        else 1)) ∧
    charset_size ("abc".toList) = 26 ∧
    charset_size ("abc123".toList) = 36 ∧
    charset_size ("Abc123!".toList) = 95 := by
  refine ⟨fun pw => ⟨charset_size_pos pw, ?_⟩, by decide, by decide, by decide⟩
  unfold charset_size
  cases ha : pw.any isLowerC <;> cases hb : pw.any isUpperC <;>
    cases hc : pw.any isDigitC <;> cases hd : pw.any isSymbolC <;>
    norm_num [ha, hb, hc, hd]

/-- A character outside all four classes must be the underscore. -/
theorem char_no_class_eq_underscore (c : Char) (h1 : isLowerC c = false)
    (h2 : isUpperC c = false) (h3 : isDigitC c = false)
    (h4 : isSymbolC c = false) : c = '_' := by
  unfold isSymbolC isWordC at h4
  rw [h1, h2, h3] at h4
  simp at h4
  exact h4

/-- C7, counterexample: the non-empty string "_" has no character in any of
the four classes, and `charset_size` takes its fallback value 1 on it. -/
theorem charset_fallback_nonempty_cex :
    (['_'] : List Char) ≠ [] ∧ ['_'].any isLowerC = false ∧
    ['_'].any isUpperC = false ∧ ['_'].any isDigitC = false ∧
    ['_'].any isSymbolC = false ∧ charset_size ['_'] = 1 := by decide

/-- C7, amended: over ASCII input (where the model of `\w` agrees with
Python), a non-empty password triggers the fallback `charset_size = 1`
exactly when every one of its characters is the underscore, the only ASCII
word character outside the letter and digit classes. -/
theorem charset_fallback_iff (pw : List Char)
    (_hascii : ∀ c ∈ pw, c.toNat ≤ 127) (_hne : pw ≠ []) :
    charset_size pw = 1 ↔ ∀ c ∈ pw, c = '_' := by
  constructor
  · intro h
    have hS : (if pw.any isLowerC then (26:ℕ) else 0) +
        (if pw.any isUpperC then 26 else 0) +
        (if pw.any isDigitC then 10 else 0) +
        (if pw.any isSymbolC then 33 else 0) = 0 := by
      by_contra hS0
      unfold charset_size at h
      rw [if_neg hS0] at h
      revert h hS0
      split_ifs <;> omega
    have ha : pw.any isLowerC = false := by
      revert hS
      split_ifs with h1 h2 h3 h4 <;> simp_all
    have hb : pw.any isUpperC = false := by
      revert hS
      split_ifs with h1 h2 h3 h4 <;> simp_all
    have hc : pw.any isDigitC = false := by
      revert hS
      split_ifs with h1 h2 h3 h4 <;> simp_all
    have hd : pw.any isSymbolC = false := by
      revert hS
      split_ifs with h1 h2 h3 h4 <;> simp_all
    rw [List.any_eq_false] at ha hb hc hd
    intro c hcmem
    exact char_no_class_eq_underscore c
      (by simpa using ha c hcmem) (by simpa using hb c hcmem)
      (by simpa using hc c hcmem) (by simpa using hd c hcmem)
  · intro h
    have ha : pw.any isLowerC = false := by
      rw [List.any_eq_false]
      intro c hcmem
      rw [h c hcmem]
      decide
    have hb : pw.any isUpperC = false := by
      rw [List.any_eq_false]
      intro c hcmem
      rw [h c hcmem]
      decide
    have hc : pw.any isDigitC = false := by
      rw [List.any_eq_false]
      intro c hcmem
      rw [h c hcmem]
      decide
    have hd : pw.any isSymbolC = false := by
      rw [List.any_eq_false]
      intro c hcmem
      rw [h c hcmem]
      decide
    unfold charset_size
    simp [ha, hb, hc, hd]

theorem charset_fallback_iff_witness :
    charset_size ['_'] = 1 ↔ ∀ c ∈ (['_'] : List Char), c = '_' :=
  charset_fallback_iff ['_'] (by decide) (by decide)

/-- Pulling the entropy-tier addition out of the accumulated score. -/
theorem tier_sum_eq (s m p : ℤ) (c80 c60 c40 : Prop) [Decidable c80]
    [Decidable c60] [Decidable c40] :
    (if c80 then (s + m) + 3 else if c60 then (s + m) + 2 else
      if c40 then (s + m) + 1 else (s + m)) - p =
    s + m + (if c80 then (3 : ℤ) else if c60 then 2 else if c40 then 1 else 0) - p := by
  split_ifs <;> ring

/-- The score of the main branch is the clamp of the running total. -/
theorem mainVerdict_score (pw : List Char) :
    (mainVerdict pw).score = max 0 (min 10 (preClampScore pw)) := by
  unfold mainVerdict
  dsimp only
  rw [tier_sum_eq]
  rfl

/-- The label of the main branch is the spec mapping of its score. -/
theorem mainVerdict_label (pw : List Char) :
    (mainVerdict pw).label = labelOf (mainVerdict pw).score := rfl

/-- C2: for every non-empty, non-blacklisted password, the final score is
the clamp to [0, 10] of length tier + variety points + entropy tier −
pattern penalty. -/
theorem main_score_formula (pw : List Char) (h1 : pw ≠ [])
    (h2 : toLowerList pw ∉ COMMON) :
    (score_password pw).score =
      max 0 (min 10 (lengthTier pw.length + varietyPoints pw + entropyTier pw -
        (repeating_or_sequences_penalty pw : ℤ))) := by
  rw [score_password_main h1 h2, mainVerdict_score]
  rfl

theorem main_score_formula_witness :
    (score_password ("Hello".toList)).score =
      max 0 (min 10 (lengthTier ("Hello".toList).length +
        varietyPoints ("Hello".toList) + entropyTier ("Hello".toList) -
        (repeating_or_sequences_penalty ("Hello".toList) : ℤ))) :=
  main_score_formula _ (by decide) (by decide)

/-- C10: on the main branch the running score before the clamp is at most
10, so only the lower clamp to 0 can change it. -/
theorem preclamp_le_ten (pw : List Char) (h1 : pw ≠ [])
    (h2 : toLowerList pw ∉ COMMON) :
    preClampScore pw ≤ 10 ∧
    (score_password pw).score = max 0 (preClampScore pw) := by
  have hlen : lengthTier pw.length ≤ 4 := by
    unfold lengthTier
    split_ifs <;> norm_num
  have hcats : cats pw ≤ 4 := by
    unfold cats
    split_ifs <;> norm_num
  have hcats' : (cats pw : ℤ) ≤ 4 := by exact_mod_cast hcats
  have hvar : varietyPoints pw ≤ 3 := by
    unfold varietyPoints
    exact max_le (by norm_num) (by omega)
  have hent : entropyTier pw ≤ 3 := by
    unfold entropyTier
    split_ifs <;> norm_num
  have hpen : (0 : ℤ) ≤ (repeating_or_sequences_penalty pw : ℤ) := by
    exact_mod_cast Nat.zero_le _
  have hsum : preClampScore pw ≤ 10 := by
    unfold preClampScore
    linarith
  refine ⟨hsum, ?_⟩
  rw [score_password_main h1 h2, mainVerdict_score, min_eq_right hsum]

theorem preclamp_le_ten_witness :
    preClampScore ("S3cret".toList) ≤ 10 ∧
    (score_password ("S3cret".toList)).score =
      max 0 (preClampScore ("S3cret".toList)) :=
  preclamp_le_ten _ (by decide) (by decide)

/-- C3, counterexample: the empty string and "a" both get score 0, but the
former is labelled "Empty" and the latter "Very Weak", so the label field
is not a function of the score alone. -/
theorem label_not_score_function_cex :
    (score_password []).score = (score_password ['a']).score ∧
    (score_password []).label ≠ (score_password ['a']).label := by
  have hmain := @score_password_main ['a'] (by decide) (by decide)
  have e80 : ¬((80 : ℝ) ≤ shannon_entropy_bits ['a']) := by
    rw [shannon_ge_80_iff]
    decide
  have e60 : ¬((60 : ℝ) ≤ shannon_entropy_bits ['a']) := by
    rw [shannon_ge_60_iff]
    decide
  have e40 : ¬((40 : ℝ) ≤ shannon_entropy_bits ['a']) := by
    rw [shannon_ge_40_iff]
    decide
  have hc : cats ['a'] = 1 := by decide
  have hp : repeating_or_sequences_penalty ['a'] = 0 := by decide
  rw [score_password_empty, hmain]
  unfold mainVerdict
  norm_num [e80, e60, e40, hc, hp]
  decide

/-- C3, amended: for every non-empty password the label is the spec mapping
applied to the score, and the mapping sends the boundary scores
0, 2, 3, 4, 5, 6, 7, 8, 9, 10 to the expected labels. -/
theorem label_of_clamped_score (pw : List Char) (h1 : pw ≠ []) :
    ((score_password pw).label = labelOf (score_password pw).score) ∧
    labelOf 0 = "Very Weak" ∧ labelOf 2 = "Very Weak" ∧ labelOf 3 = "Weak" ∧
    labelOf 4 = "Weak" ∧ labelOf 5 = "Moderate" ∧ labelOf 6 = "Moderate" ∧
    labelOf 7 = "Strong" ∧ labelOf 8 = "Strong" ∧ labelOf 9 = "Excellent" ∧
    labelOf 10 = "Excellent" := by
  refine ⟨?_, by decide, by decide, by decide, by decide, by decide, by decide,
    by decide, by decide, by decide, by decide⟩
  by_cases h2 : toLowerList pw ∈ COMMON
  · rw [score_password_common h1 h2]
    decide
  · rw [score_password_main h1 h2]
    exact mainVerdict_label pw

theorem label_of_clamped_score_witness :
    ((score_password ['a']).label = labelOf (score_password ['a']).score) ∧
    labelOf 0 = "Very Weak" ∧ labelOf 2 = "Very Weak" ∧ labelOf 3 = "Weak" ∧
    labelOf 4 = "Weak" ∧ labelOf 5 = "Moderate" ∧ labelOf 6 = "Moderate" ∧
    labelOf 7 = "Strong" ∧ labelOf 8 = "Strong" ∧ labelOf 9 = "Excellent" ∧
    labelOf 10 = "Excellent" :=
  label_of_clamped_score ['a'] (by decide)

/-- C9, counterexample: the password "aaa1234qwerasdfzxcv" triggers the
repeat, numeric and alphabetic detectors and all three keyboard rows, so
the pattern penalty is 6, not at most 5. -/
theorem penalty_six_cex :
    repeating_or_sequences_penalty ("aaa1234qwerasdfzxcv".toList) = 6 ∧
    ¬(repeating_or_sequences_penalty ("aaa1234qwerasdfzxcv".toList) ≤ 5) := by
  decide

/-- C9, amended: the pattern penalty is between 0 and 6: the repeat,
ascending-numeric and alphabetic-run detectors each contribute at most 1,
and the keyboard-row detector at most 1 per row across the three rows. -/
theorem penalty_le_six (pw : List Char) :
    repeating_or_sequences_penalty pw ≤ 6 ∧
    (KB_ROWS.filter (fun row => rowHit row (toLowerList pw))).length ≤ 3 := by
  have hk : (KB_ROWS.filter (fun row => rowHit row (toLowerList pw))).length ≤ 3 := by
    have h := List.length_filter_le (fun row => rowHit row (toLowerList pw)) KB_ROWS
    have h3 : KB_ROWS.length = 3 := rfl
    rw [h3] at h
    exact h
  refine ⟨?_, hk⟩
  unfold repeating_or_sequences_penalty
  split_ifs <;> omega

/-- Bounds for `log2 26`: `2 ^ 375 ≤ 26 ^ 80 < 2 ^ 377` pins
`80 * log2 26` between 375 and 377, so `10 * (4 * log2 26)` rounds to 188. -/
theorem round_forty_logb : round ((10 : ℝ) * (4 * Real.logb 2 26)) = 188 := by
  have hlo : ((375 : ℕ) : ℝ) ≤ ((80 : ℕ) : ℝ) * Real.logb 2 ((26 : ℕ) : ℝ) := by
    rw [nat_le_mul_logb_iff 375 80 26 (by norm_num) (by norm_num)]
    norm_num
  have hhi : ¬(((377 : ℕ) : ℝ) ≤ ((80 : ℕ) : ℝ) * Real.logb 2 ((26 : ℕ) : ℝ)) := by
    rw [nat_le_mul_logb_iff 377 80 26 (by norm_num) (by norm_num)]
    norm_num
  push_cast at hlo hhi
  rw [not_le] at hhi
  rw [round_eq, Int.floor_eq_iff]
  push_cast
  constructor
  · linarith
  · linarith

theorem round1_four_logb : round1 ((4 : ℝ) * Real.logb 2 26) = 18.8 := by
  unfold round1
  rw [round_forty_logb]
  norm_num

/-- C8: the entropy is `length × log2(charset_size)` for every password, it
is 0 for the empty string, and for "aaaa" (charset 26) it is `4 × log2 26`,
which the Verdict's `entropy_bits` field carries rounded to 18.8. -/
theorem entropy_formula :
    (∀ pw : List Char, shannon_entropy_bits pw =
      (pw.length : ℝ) * Real.logb 2 (charset_size pw)) ∧
    shannon_entropy_bits [] = 0 ∧
    shannon_entropy_bits ("aaaa".toList) = 4 * Real.logb 2 26 ∧
    (score_password ("aaaa".toList)).entropy_bits = some (18.8 : ℝ) := by
  have hch : charset_size ("aaaa".toList) = 26 := by decide
  have hshan : shannon_entropy_bits ("aaaa".toList) = 4 * Real.logb 2 26 := by
    unfold shannon_entropy_bits
    rw [hch]
    norm_num
  refine ⟨fun pw => rfl, by unfold shannon_entropy_bits; simp, hshan, ?_⟩
  have hmain := @score_password_main ("aaaa".toList) (by decide) (by decide)
  rw [hmain]
  unfold mainVerdict
  dsimp only
  rw [hshan, round1_four_logb]

end PasswordStrength
